import Mathlib

/-!
Verification of the music-catalogue processing core of the babafun.github.io
repository: classification rules (creator-friendly predicate), the filter,
the album grouper, the catalogue validator, and the WASM-binding
initialization guard.  TypeScript sources are embedded shallowly: strings
are Lean strings manipulated as character lists, JS regular expressions are
explicit matchers, and nullable values are options.
-/

namespace Babafun

/-- Release type classification for songs, from src/types/music.ts:
type ReleaseType = Independent | NCS | Monstercat. -/
inductive ReleaseType where
  | Independent
  | NCS
  | Monstercat
deriving DecidableEq, Repr

/-- Song record, from the Song interface in src/types/music.ts. -/
structure Song where
  id : String
  title : String
  albumName : String
  releaseType : ReleaseType
  hasContentId : Bool
  streamingLink : String
  license : String
deriving DecidableEq, Repr

/-- Album record, from the Album interface in src/types/music.ts. -/
structure Album where
  name : String
  songs : List Song
deriving DecidableEq, Repr

/-- Top-level catalogue aggregate, from the MusicData interface in
src/types/music.ts. -/
structure MusicData where
  songs : List Song
  albums : List Album
deriving DecidableEq, Repr

/-- JS String.prototype.trim on a character list: whitespace removed from
both ends. -/
def trimChars (cs : List Char) : List Char :=
  ((cs.dropWhile Char.isWhitespace).reverse.dropWhile Char.isWhitespace).reverse

/-- JS String.prototype.toLowerCase on a character list (ASCII letters,
which is all the catalogue licenses use). -/
def lowerChars (cs : List Char) : List Char :=
  cs.map Char.toLower

/-- Matcher for a dot followed by one or more digits, consuming the whole
list. -/
def dotDigits : List Char → Bool
  | c :: rest => c == '.' && decide (rest ≠ []) && rest.all Char.isDigit
  | [] => false

/-- Matcher for the version-number fragment of the JS regexes in
src/utils/filters.ts: one or more digits, a dot, one or more digits,
consuming the whole list. -/
def isVersionNum (cs : List Char) : Bool :=
  decide (cs.takeWhile Char.isDigit ≠ []) && dotDigits (cs.dropWhile Char.isDigit)

/-- Matcher for the optional tail of the anchored CC regexes: either the
end of the string, or a space followed by a version number. -/
def versionTail : List Char → Bool
  | [] => true
  | c :: rest => c == ' ' && isVersionNum rest

/-- Anchored match of one CC pattern: the input is exactly the pattern,
optionally followed by a space and a version number.  This is the shape of
each regex in isCommercialCCLicenseJS. -/
def ccMatch (pat cs : List Char) : Bool :=
  decide (cs.take pat.length = pat) && versionTail (cs.drop pat.length)

/-- The normalization applied by the license predicates in
src/utils/filters.ts: JS trim followed by toLowerCase. -/
def normalizeLicense (license : String) : List Char :=
  lowerChars (trimChars license.data)

/-- JavaScript fallback for commercial CC license checking,
src/utils/filters.ts lines 224-239.  The falsy guard maps the empty string
to false; otherwise the trimmed, lowercased license is tested against the
three anchored regexes for cc by, cc by-sa and cc0. -/
def isCommercialCCLicenseJS (license : String) : Bool :=
  if license = "" then false
  else
    ccMatch "cc by".data (normalizeLicense license) ||
      ccMatch "cc by-sa".data (normalizeLicense license) ||
      ccMatch "cc0".data (normalizeLicense license)

/-- JavaScript fallback for BGML-P license checking,
src/utils/filters.ts lines 244-250. -/
def isBGMLPLicenseJS (license : String) : Bool :=
  if license = "" then false
  else decide (normalizeLicense license = "bgml-p".data)

/-- JavaScript fallback for creator-friendly song checking,
src/utils/filters.ts lines 255-262. -/
def isCreatorFriendlySongJS (song : Song) : Bool :=
  isCommercialCCLicenseJS song.license || song.releaseType == ReleaseType.NCS ||
    isBGMLPLicenseJS song.license

/-- JavaScript fallback for filtering creator-friendly songs,
src/utils/filters.ts lines 267-269. -/
def filterCreatorFriendlyJS (songs : List Song) : List Song :=
  songs.filter (fun song => isCreatorFriendlySongJS song)

/-- The nullable-license entry to isCommercialCCLicenseJS: the source guard
(exclamation license, typeof check) returns false for null and undefined,
modelled as the none case. -/
def isCommercialCCLicenseNullable : Option String → Bool
  | none => false
  | some s => isCommercialCCLicenseJS s

/-- The nullable-license entry to isBGMLPLicenseJS, same guard. -/
def isBGMLPLicenseNullable : Option String → Bool
  | none => false
  | some s => isBGMLPLicenseJS s

/-- isCreatorFriendlySongJS over a song whose license field arrived as
null or undefined at the boundary. -/
def isCreatorFriendlySongJSNullable (rt : ReleaseType) (license : Option String) : Bool :=
  isCommercialCCLicenseNullable license || rt == ReleaseType.NCS ||
    isBGMLPLicenseNullable license

/-- Decidable substring test used to model JS String.prototype.includes:
does cs start with pat? -/
def takeEq (pat cs : List Char) : Bool :=
  decide (cs.take pat.length = pat)

/-- Decidable substring test used to model JS String.prototype.includes:
does pat occur anywhere in the haystack? -/
def hasSubstrChars (pat : List Char) : List Char → Bool
  | [] => takeEq pat []
  | c :: rest => takeEq pat (c :: rest) || hasSubstrChars pat rest

/-- String-level wrapper of the substring test. -/
def containsStr (needle hay : String) : Bool :=
  hasSubstrChars needle.data hay.data

namespace Display

/-- Display-layer classifier, src/utils/display.ts lines 37-51, with the
null-tolerant license access (license or-else empty string) made explicit
as an option.  NCS short-circuits; otherwise the lowercased, trimmed
license is tested with substring includes for cc by and cc0, and exact
equality for bgml-p. -/
def isCreatorFriendlySongCore (rt : ReleaseType) (license : Option String) : Bool :=
  if rt == ReleaseType.NCS then true
  else
    let l := trimChars (lowerChars (license.getD "").data)
    if hasSubstrChars "cc by".data l || hasSubstrChars "cc0".data l ||
        decide (l = "bgml-p".data) then true
    else false

/-- Display-layer classifier applied to a well-typed song. -/
def isCreatorFriendlySong (song : Song) : Bool :=
  isCreatorFriendlySongCore song.releaseType (some song.license)

end Display

/-- Outcome of one call to initWasm in src/wasm/bindings.ts: either a
normal return or a thrown error, each recording the value of the
module-level ready flag afterwards. -/
inductive InitOutcome where
  | ok (ready : Bool)
  | err (ready : Bool)
deriving DecidableEq, Repr

/-- One call to initWasm, src/wasm/bindings.ts lines 16-41.  The outcomes
of the two external init attempts (environment-specific load, then the
default fallback) are abstracted as booleans.  If the ready flag is
already set the body is skipped and the call returns normally; otherwise a
successful attempt sets the flag, and if both attempts fail the original
error is rethrown with the flag still clear. -/
def initWasm (primaryOk fallbackOk ready : Bool) : InitOutcome :=
  if ready then InitOutcome.ok ready
  else if primaryOk then InitOutcome.ok true
  else if fallbackOk then InitOutcome.ok true
  else InitOutcome.err ready

/-- Boolean lexicographic comparison of character lists, the ordinal
byte-wise ascending ordering the spec recommends for album names. -/
def lexLeChars : List Char → List Char → Bool
  | [], _ => true
  | _ :: _, [] => false
  | a :: as, b :: bs =>
    if a.toNat < b.toNat then true
    else if b.toNat < a.toNat then false
    else lexLeChars as bs

/-- The ordinal string ordering as a relation on strings. -/
def strLe (a b : String) : Prop :=
  lexLeChars a.data b.data = true

/-- The strict ordinal string ordering. -/
def strLt (a b : String) : Prop :=
  strLe a b ∧ a ≠ b

instance : DecidableRel strLe :=
  fun a b => inferInstanceAs (Decidable (lexLeChars a.data b.data = true))

/-- Modelled from the spec: the Rust grouping module (rust/src/grouping.rs,
exposed as group_by_album through src/wasm/bindings.ts) is not among the
sources, only its declaration, tests and callers are.  Per spec section
4.2 it partitions songs by albumName, keeps first-occurrence order inside
each album, returns albums sorted ascending by name, and produces no empty
album. -/
def groupByAlbum (songs : List Song) : List Album :=
  (List.insertionSort strLe (songs.map Song.albumName).dedup).map
    (fun n => { name := n, songs := songs.filter (fun s => s.albumName == n) })

/-- Concatenation of the song lists of a list of albums. -/
def flattenAlbums (albums : List Album) : List Song :=
  (albums.map Album.songs).flatten

/-- First element of the list that also occurs later in it, scanning left
to right. -/
def findFirstDuplicate : List String → Option String
  | [] => none
  | x :: xs => if x ∈ xs then some x else findFirstDuplicate xs

/-- Modelled from the spec: the Rust validator (rust/src/validation.rs,
exposed as validate_music_data through src/wasm/bindings.ts) is not among
the sources, only its declaration, tests and callers are.  Per spec
section 4.3 it checks every song's shape, which is vacuous on well-typed
Song values, then enforces catalogue-wide id uniqueness, returning the
empty string when valid and otherwise an error message containing the
word duplicate and the offending id. -/
def validateMusicData (data : MusicData) : String :=
  match findFirstDuplicate (data.songs.map Song.id) with
  | some dupId => "duplicate song ID found: " ++ dupId
  | none => ""

/-- Demo fixture: an NCS release with no license. -/
def songNCS : Song :=
  { id := "s1", title := "Electric Pulse", albumName := "A",
    releaseType := ReleaseType.NCS, hasContentId := false,
    streamingLink := "https://ncs.io/electric-pulse", license := "" }

/-- Demo fixture: an all-rights-reserved independent release. -/
def songARR : Song :=
  { id := "s2", title := "Neon Nights", albumName := "A",
    releaseType := ReleaseType.Independent, hasContentId := true,
    streamingLink := "https://push.fm/neon-nights", license := "All Rights Reserved" }

/-- Demo fixture: an independent release under a non-commercial CC
license, the divergence input between the two classifier copies. -/
def songByNC : Song :=
  { id := "s3", title := "Digital Dreams", albumName := "B",
    releaseType := ReleaseType.Independent, hasContentId := false,
    streamingLink := "https://push.fm/digital-dreams", license := "CC BY-NC 4.0" }

/-- Demo fixture: the album the grouper builds from songNCS and songARR. -/
def albumA : Album :=
  { name := "A", songs := [songNCS, songARR] }

/-- Demo fixture: a catalogue with a duplicated song id. -/
def dataDup : MusicData :=
  { songs := [songNCS, { songARR with id := "s1" }], albums := [] }

/-- Spec-side notion of a version number, following the spec's words: one
or more digits, a dot, one or more digits. -/
def IsVersionNumber (v : List Char) : Prop :=
  ∃ d1 d2 : List Char, d1 ≠ [] ∧ d2 ≠ [] ∧ (∀ c ∈ d1, c.isDigit = true) ∧
    (∀ c ∈ d2, c.isDigit = true) ∧ v = d1 ++ '.' :: d2

/-- Spec-side commercial-CC predicate, stated from the spec's words: the
license, case-insensitively and whitespace-trimmed, is exactly cc by or
cc by-sa, each optionally followed by a space and a version number, or
exactly cc0 optionally followed by a space and a version number. -/
def SpecCommercialCC (license : String) : Prop :=
  normalizeLicense license = "cc by".data ∨
  normalizeLicense license = "cc by-sa".data ∨
  normalizeLicense license = "cc0".data ∨
  ∃ v : List Char, IsVersionNumber v ∧
    (normalizeLicense license = "cc by".data ++ ' ' :: v ∨
     normalizeLicense license = "cc by-sa".data ++ ' ' :: v ∨
     normalizeLicense license = "cc0".data ++ ' ' :: v)

lemma all_mem_takeWhile (p : Char → Bool) :
    ∀ l : List Char, ∀ c ∈ l.takeWhile p, p c = true := by
  intro l
  induction l with
  | nil => intro c hc; simp [List.takeWhile] at hc
  | cons a l ih =>
    intro c hc
    rw [List.takeWhile_cons] at hc
    by_cases ha : p a = true
    · rw [if_pos ha] at hc
      rcases List.mem_cons.mp hc with rfl | hc
      · exact ha
      · exact ih c hc
    · rw [if_neg ha] at hc
      simp at hc

lemma takeWhile_append_all (p : Char → Bool) (d : List Char)
    (hall : ∀ c ∈ d, p c = true) (x : Char) (r : List Char) (hx : p x = false) :
    (d ++ x :: r).takeWhile p = d ∧ (d ++ x :: r).dropWhile p = x :: r := by
  induction d with
  | nil =>
    constructor
    · rw [List.nil_append, List.takeWhile_cons, if_neg (by simp [hx])]
    · rw [List.nil_append, List.dropWhile_cons, if_neg (by simp [hx])]
  | cons a d ih =>
    have ha : p a = true := hall a (List.mem_cons_self a d)
    have ih' := ih (fun c hc => hall c (List.mem_cons_of_mem a hc))
    constructor
    · rw [List.cons_append, List.takeWhile_cons, if_pos ha, ih'.1]
    · rw [List.cons_append, List.dropWhile_cons, if_pos ha, ih'.2]

lemma isVersionNum_iff (v : List Char) :
    isVersionNum v = true ↔ IsVersionNumber v := by
  constructor
  · intro h
    simp only [isVersionNum, Bool.and_eq_true, decide_eq_true_iff] at h
    obtain ⟨h1, h2⟩ := h
    rcases hd : v.dropWhile Char.isDigit with _ | ⟨c, rest⟩
    · rw [hd] at h2; simp [dotDigits] at h2
    · rw [hd] at h2
      simp only [dotDigits, Bool.and_eq_true, beq_iff_eq, decide_eq_true_iff,
        List.all_eq_true] at h2
      obtain ⟨⟨hc, hrest⟩, hall⟩ := h2
      refine ⟨v.takeWhile Char.isDigit, rest, h1, hrest,
        fun c hc' => all_mem_takeWhile Char.isDigit v c hc', fun c hc' => hall c hc', ?_⟩
      subst hc
      conv_lhs => rw [← List.takeWhile_append_dropWhile Char.isDigit v]
      rw [hd]
  · rintro ⟨d1, d2, h1, h2, hall1, hall2, rfl⟩
    have hdot : Char.isDigit '.' = false := rfl
    obtain ⟨ht, hdr⟩ := takeWhile_append_all Char.isDigit d1 hall1 '.' d2 hdot
    simp only [isVersionNum, ht, hdr, dotDigits, Bool.and_eq_true, beq_iff_eq,
      decide_eq_true_iff, List.all_eq_true]
    exact ⟨h1, ⟨trivial, h2⟩, fun c hc => hall2 c hc⟩

lemma versionTail_iff (r : List Char) :
    versionTail r = true ↔ r = [] ∨ ∃ v, isVersionNum v = true ∧ r = ' ' :: v := by
  cases r with
  | nil => simp [versionTail]
  | cons c rest =>
    simp only [versionTail, Bool.and_eq_true, beq_iff_eq]
    constructor
    · rintro ⟨rfl, hv⟩
      exact Or.inr ⟨rest, hv, rfl⟩
    · rintro (h | ⟨v, hv, heq⟩)
      · exact absurd h (List.cons_ne_nil c rest)
      · injection heq with hc hrest
        subst hc
        subst hrest
        exact ⟨rfl, hv⟩

lemma ccMatch_iff (pat cs : List Char) :
    ccMatch pat cs = true ↔
      cs = pat ∨ ∃ v, isVersionNum v = true ∧ cs = pat ++ ' ' :: v := by
  simp only [ccMatch, Bool.and_eq_true, decide_eq_true_iff]
  constructor
  · rintro ⟨htake, htail⟩
    have hcs : cs = pat ++ cs.drop pat.length := by
      conv_lhs => rw [← List.take_append_drop pat.length cs]
      rw [htake]
    rcases (versionTail_iff _).mp htail with hnil | ⟨v, hv, hdrop⟩
    · left; rw [hcs, hnil, List.append_nil]
    · right; exact ⟨v, hv, by rw [hcs, hdrop]⟩
  · rintro (rfl | ⟨v, hv, rfl⟩)
    · refine ⟨List.take_length _, ?_⟩
      rw [List.drop_length]
      rfl
    · refine ⟨List.take_left pat (' ' :: v), ?_⟩
      rw [List.drop_left]
      simp [versionTail, hv]

lemma append_cons_ne_nil (l : List Char) (c : Char) (r : List Char) :
    l ++ c :: r ≠ [] := by
  simp

/-- C3: isCommercialCCLicenseJS license is true exactly when the license,
case-insensitively and whitespace-trimmed, is cc by or cc by-sa optionally
followed by a space and a version number, or cc0 optionally followed by a
space and a version number; substring occurrences elsewhere, such as
ccbyproduct or CC BY-NC 4.0, do not match. -/
theorem isCommercialCC_anchored :
    (∀ license : String, isCommercialCCLicenseJS license = true ↔ SpecCommercialCC license)
    ∧ isCommercialCCLicenseJS "ccbyproduct" = false
    ∧ isCommercialCCLicenseJS "CC BY-NC 4.0" = false := by
  refine ⟨?_, by decide, by decide⟩
  intro license
  by_cases h0 : license = ""
  · subst h0
    simp only [isCommercialCCLicenseJS, if_pos rfl]
    constructor
    · intro h
      exact absurd h (by simp)
    · intro hs
      exfalso
      have ht : normalizeLicense "" = [] := rfl
      rw [SpecCommercialCC, ht] at hs
      rcases hs with h | h | h | ⟨v, _, h | h | h⟩ <;>
        first
          | exact absurd h (by decide)
          | exact append_cons_ne_nil _ _ _ h.symm
  · simp only [isCommercialCCLicenseJS, if_neg h0, Bool.or_eq_true, ccMatch_iff,
      isVersionNum_iff, SpecCommercialCC]
    constructor
    · rintro (((h | ⟨v, hv, h⟩) | (h | ⟨v, hv, h⟩)) | (h | ⟨v, hv, h⟩))
      · exact Or.inl h
      · exact Or.inr (Or.inr (Or.inr ⟨v, hv, Or.inl h⟩))
      · exact Or.inr (Or.inl h)
      · exact Or.inr (Or.inr (Or.inr ⟨v, hv, Or.inr (Or.inl h)⟩))
      · exact Or.inr (Or.inr (Or.inl h))
      · exact Or.inr (Or.inr (Or.inr ⟨v, hv, Or.inr (Or.inr h)⟩))
    · rintro (h | h | h | ⟨v, hv, h | h | h⟩)
      · exact Or.inl (Or.inl (Or.inl h))
      · exact Or.inl (Or.inr (Or.inl h))
      · exact Or.inr (Or.inl h)
      · exact Or.inl (Or.inl (Or.inr ⟨v, hv, h⟩))
      · exact Or.inl (Or.inr (Or.inr ⟨v, hv, h⟩))
      · exact Or.inr (Or.inr ⟨v, hv, h⟩)

/-- Witness for C3: a concrete license accepted by the anchored matcher. -/
theorem isCommercialCC_anchored_witness :
    SpecCommercialCC "CC BY 4.0" :=
  (isCommercialCC_anchored.1 "CC BY 4.0").mp (by decide)

/-- C1: isCreatorFriendlySongJS is exactly the disjunction of the
commercial-CC rule, the NCS release-type rule and the BGML-P rule; in
particular an NCS song is creator-friendly regardless of its license, in
both classifier copies. -/
theorem isCreatorFriendly_iff_rules :
    ∀ song : Song,
      isCreatorFriendlySongJS song =
        (isCommercialCCLicenseJS song.license || song.releaseType == ReleaseType.NCS ||
          isBGMLPLicenseJS song.license)
      ∧ (song.releaseType = ReleaseType.NCS → isCreatorFriendlySongJS song = true)
      ∧ (song.releaseType = ReleaseType.NCS → Display.isCreatorFriendlySong song = true) := by
  intro song
  refine ⟨rfl, ?_, ?_⟩
  · intro h
    simp [isCreatorFriendlySongJS, h]
  · intro h
    simp [Display.isCreatorFriendlySong, Display.isCreatorFriendlySongCore, h]

/-- Witness for C1: the NCS fixture is creator-friendly in both copies. -/
theorem isCreatorFriendly_iff_rules_witness :
    songNCS.releaseType = ReleaseType.NCS ∧ isCreatorFriendlySongJS songNCS = true
      ∧ Display.isCreatorFriendlySong songNCS = true :=
  ⟨rfl, (isCreatorFriendly_iff_rules songNCS).2.1 rfl,
    (isCreatorFriendly_iff_rules songNCS).2.2 rfl⟩

/-- C2: filterCreatorFriendlyJS is exactly filtering by the predicate: a
sublist of the input (hence no invention, no duplication beyond input
multiplicity, input order preserved) whose members all exist by id in the
input. -/
theorem filterCreatorFriendly_exact :
    ∀ songs : List Song,
      filterCreatorFriendlyJS songs = songs.filter (fun song => isCreatorFriendlySongJS song)
      ∧ (filterCreatorFriendlyJS songs).Sublist songs
      ∧ ∀ s ∈ filterCreatorFriendlyJS songs, s.id ∈ songs.map Song.id := by
  intro songs
  refine ⟨rfl, List.filter_sublist songs, ?_⟩
  intro s hs
  exact List.mem_map_of_mem Song.id (List.mem_of_mem_filter hs)

/-- Witness for C2: the NCS fixture survives the filter and its id is in
the input. -/
theorem filterCreatorFriendly_exact_witness :
    songNCS ∈ filterCreatorFriendlyJS [songNCS, songARR] ∧
      songNCS.id ∈ [songNCS, songARR].map Song.id :=
  ⟨by decide, (filterCreatorFriendly_exact [songNCS, songARR]).2.2 songNCS (by decide)⟩

/-- C8: both classifier copies are total over nullable licenses; a null or
undefined license behaves like the empty string and such a song is
creator-friendly exactly when its release type is NCS. -/
theorem nullLicense_handling :
    ∀ rt : ReleaseType,
      isCreatorFriendlySongJSNullable rt none = isCreatorFriendlySongJSNullable rt (some "")
      ∧ (isCreatorFriendlySongJSNullable rt none = true ↔ rt = ReleaseType.NCS)
      ∧ Display.isCreatorFriendlySongCore rt none = Display.isCreatorFriendlySongCore rt (some "")
      ∧ (Display.isCreatorFriendlySongCore rt none = true ↔ rt = ReleaseType.NCS) := by
  intro rt
  cases rt <;> exact ⟨by decide, by decide, by decide, by decide⟩

/-- Witness for C8: the NCS case of the nullable classifiers. -/
theorem nullLicense_handling_witness :
    isCreatorFriendlySongJSNullable ReleaseType.NCS none = true ∧
      Display.isCreatorFriendlySongCore ReleaseType.NCS none = true :=
  ⟨((nullLicense_handling ReleaseType.NCS).2.1).mpr rfl,
    ((nullLicense_handling ReleaseType.NCS).2.2.2).mpr rfl⟩

/-- C9: once a call to initWasm has returned successfully, any later call
is a no-op that returns normally and leaves the ready flag unchanged,
whatever the outcomes of the external init attempts would be. -/
theorem initWasm_idempotent :
    ∀ p1 f1 p2 f2 st : Bool,
      initWasm p1 f1 false = InitOutcome.ok st →
      initWasm p2 f2 st = InitOutcome.ok st := by
  intro p1 f1 p2 f2 st h
  cases st with
  | true => simp [initWasm]
  | false =>
    exfalso
    cases p1 <;> cases f1 <;> simp [initWasm] at h

/-- Witness for C9: a successful first call followed by a second call with
both init attempts failing. -/
theorem initWasm_idempotent_witness :
    initWasm true true false = InitOutcome.ok true ∧
      initWasm false false true = InitOutcome.ok true :=
  ⟨by decide, initWasm_idempotent true true false false true (by decide)⟩

/-- C10: the display-layer classifier accepts substring matches: any
non-NCS song whose lowercased, trimmed license contains cc by or cc0
anywhere is classified creator-friendly, including the non-commercial
CC BY-NC 4.0, which the anchored matcher in filters.ts rejects. -/
theorem display_substring_classifier :
    (∀ song : Song, song.releaseType ≠ ReleaseType.NCS →
        (hasSubstrChars "cc by".data (trimChars (lowerChars song.license.data)) = true ∨
          hasSubstrChars "cc0".data (trimChars (lowerChars song.license.data)) = true) →
        Display.isCreatorFriendlySong song = true)
    ∧ Display.isCreatorFriendlySong songByNC = true
    ∧ isCommercialCCLicenseJS songByNC.license = false := by
  refine ⟨?_, by decide, by decide⟩
  intro song hns hcc
  have hbeq : (song.releaseType == ReleaseType.NCS) = false := by
    simp [hns]
  rcases hcc with h | h <;>
    simp [Display.isCreatorFriendlySong, Display.isCreatorFriendlySongCore, hbeq, h]

/-- Witness for C10: the CC BY-NC fixture is non-NCS and accepted by the
display classifier. -/
theorem display_substring_classifier_witness :
    songByNC.releaseType ≠ ReleaseType.NCS ∧ Display.isCreatorFriendlySong songByNC = true :=
  ⟨by decide, display_substring_classifier.1 songByNC (by decide) (Or.inl (by decide))⟩

lemma findFirstDuplicate_eq_none_iff (l : List String) :
    findFirstDuplicate l = none ↔ l.Nodup := by
  induction l with
  | nil => simp [findFirstDuplicate]
  | cons x xs ih =>
    simp only [findFirstDuplicate]
    by_cases hx : x ∈ xs
    · rw [if_pos hx]
      simp [List.nodup_cons, hx]
    · rw [if_neg hx]
      simp [List.nodup_cons, hx, ih]

lemma findFirstDuplicate_count (l : List String) (d : String)
    (h : findFirstDuplicate l = some d) : 2 ≤ l.count d := by
  induction l with
  | nil => simp [findFirstDuplicate] at h
  | cons x xs ih =>
    simp only [findFirstDuplicate] at h
    by_cases hx : x ∈ xs
    · rw [if_pos hx] at h
      injection h with h
      subst h
      have h1 : 0 < xs.count x := List.count_pos_iff.mpr hx
      rw [List.count_cons_self]
      omega
    · rw [if_neg hx] at h
      have h1 := ih h
      rw [List.count_cons]
      omega

lemma data_append (s t : String) : (s ++ t).data = s.data ++ t.data := rfl

lemma validateMusicData_some (data : MusicData) (d : String)
    (h : findFirstDuplicate (data.songs.map Song.id) = some d) :
    validateMusicData data = "duplicate song ID found: " ++ d := by
  unfold validateMusicData
  rw [h]

lemma validateMusicData_none (data : MusicData)
    (h : findFirstDuplicate (data.songs.map Song.id) = none) :
    validateMusicData data = "" := by
  unfold validateMusicData
  rw [h]

lemma hasSubstrChars_of_takeEq (pat cs : List Char) (h : takeEq pat cs = true) :
    hasSubstrChars pat cs = true := by
  cases cs with
  | nil => simpa [hasSubstrChars] using h
  | cons c rest => simp [hasSubstrChars, h]

lemma hasSubstrChars_append_right (pat a b : List Char)
    (h : hasSubstrChars pat b = true) : hasSubstrChars pat (a ++ b) = true := by
  induction a with
  | nil => simpa using h
  | cons c a ih => simp [hasSubstrChars, ih]

lemma takeEq_self (pat : List Char) : takeEq pat pat = true := by
  simp [takeEq]

lemma takeEq_append (pat r : List Char) : takeEq pat (pat ++ r) = true := by
  simp only [takeEq, decide_eq_true_iff]
  exact List.take_left pat r

/-- C4: validateMusicData accepts a catalogue of well-typed songs exactly
when the song ids are pairwise distinct (in particular the empty catalogue
is accepted), and on rejection the error message contains the word
duplicate and a song id that occurs at least twice. -/
theorem validateMusicData_duplicate_ids :
    ∀ data : MusicData,
      (validateMusicData data = "" ↔ (data.songs.map Song.id).Nodup)
      ∧ (validateMusicData data ≠ "" →
          ∃ d : String, 2 ≤ (data.songs.map Song.id).count d ∧
            containsStr "duplicate" (validateMusicData data) = true ∧
            containsStr d (validateMusicData data) = true)
      ∧ validateMusicData { songs := [], albums := [] } = "" := by
  intro data
  refine ⟨?_, ?_, rfl⟩ <;>
    rcases h : findFirstDuplicate (data.songs.map Song.id) with _ | d
  · rw [validateMusicData_none data h]
    simp [(findFirstDuplicate_eq_none_iff _).mp h]
  · rw [validateMusicData_some data d h]
    have hcnt := findFirstDuplicate_count _ d h
    constructor
    · intro habs
      exfalso
      have hnil : ("duplicate song ID found: " ++ d).data = [] := by rw [habs]
      rw [data_append] at hnil
      rcases List.append_eq_nil.mp hnil with ⟨h1, _⟩
      exact absurd h1 (by decide)
    · intro hnd
      have := List.nodup_iff_count_le_one.mp hnd d
      omega
  · intro habs
    exact absurd (validateMusicData_none data h) habs
  · intro _
    rw [validateMusicData_some data d h]
    refine ⟨d, findFirstDuplicate_count _ d h, ?_, ?_⟩
    · rw [containsStr, data_append]
      have hpre : ("duplicate song ID found: ").data =
          ("duplicate").data ++ (" song ID found: ").data := rfl
      rw [hpre, List.append_assoc]
      exact hasSubstrChars_of_takeEq _ _ (takeEq_append _ _)
    · rw [containsStr, data_append]
      exact hasSubstrChars_append_right _ _ _
        (hasSubstrChars_of_takeEq _ _ (takeEq_self _))

/-- Witness for C4: the duplicated-id fixture is rejected with a message
containing the word duplicate and the duplicated id. -/
theorem validateMusicData_duplicate_ids_witness :
    validateMusicData dataDup ≠ "" ∧
      ∃ d : String, 2 ≤ (dataDup.songs.map Song.id).count d ∧
        containsStr "duplicate" (validateMusicData dataDup) = true ∧
        containsStr d (validateMusicData dataDup) = true :=
  ⟨by decide, (validateMusicData_duplicate_ids dataDup).2.1 (by decide)⟩

lemma lexLeChars_head_le {a b : Char} {as bs : List Char}
    (h : lexLeChars (a :: as) (b :: bs) = true) : a.toNat ≤ b.toNat := by
  simp only [lexLeChars] at h
  by_cases hab : a.toNat < b.toNat
  · omega
  · rw [if_neg hab] at h
    by_cases hba : b.toNat < a.toNat
    · rw [if_pos hba] at h
      exact absurd h (by simp)
    · omega

lemma lexLeChars_head_eq_rec {a b : Char} {as bs : List Char}
    (h : lexLeChars (a :: as) (b :: bs) = true) (heq : a.toNat = b.toNat) :
    lexLeChars as bs = true := by
  simp only [lexLeChars] at h
  rw [if_neg (by omega), if_neg (by omega)] at h
  exact h

lemma lexLeChars_total : ∀ as bs : List Char,
    lexLeChars as bs = true ∨ lexLeChars bs as = true := by
  intro as
  induction as with
  | nil => intro bs; exact Or.inl rfl
  | cons a as ih =>
    intro bs
    cases bs with
    | nil => exact Or.inr rfl
    | cons b bs =>
      by_cases hab : a.toNat < b.toNat
      · exact Or.inl (by simp [lexLeChars, hab])
      · by_cases hba : b.toNat < a.toNat
        · exact Or.inr (by simp [lexLeChars, hba])
        · rcases ih bs with h | h
          · exact Or.inl (by simp only [lexLeChars]; rw [if_neg hab, if_neg hba]; exact h)
          · exact Or.inr (by simp only [lexLeChars]; rw [if_neg hba, if_neg hab]; exact h)

lemma lexLeChars_trans : ∀ as bs cs : List Char,
    lexLeChars as bs = true → lexLeChars bs cs = true → lexLeChars as cs = true := by
  intro as
  induction as with
  | nil => intro bs cs _ _; rfl
  | cons a as ih =>
    intro bs cs h1 h2
    cases bs with
    | nil => exact absurd h1 (by simp [lexLeChars])
    | cons b bs =>
      cases cs with
      | nil => exact absurd h2 (by simp [lexLeChars])
      | cons c cs =>
        have hab := lexLeChars_head_le h1
        have hbc := lexLeChars_head_le h2
        simp only [lexLeChars]
        by_cases hac : a.toNat < c.toNat
        · rw [if_pos hac]
        · rw [if_neg hac, if_neg (by omega)]
          have heq1 : a.toNat = b.toNat := by omega
          have heq2 : b.toNat = c.toNat := by omega
          exact ih bs cs (lexLeChars_head_eq_rec h1 heq1) (lexLeChars_head_eq_rec h2 heq2)

lemma flatten_filter_perm :
    ∀ (names : List String) (songs : List Song), names.Nodup →
      (∀ s ∈ songs, s.albumName ∈ names) →
      ((names.map (fun n => songs.filter (fun s => s.albumName == n))).flatten).Perm songs := by
  intro names
  induction names with
  | nil =>
    intro songs _ hcov
    have hnil : songs = [] := by
      cases songs with
      | nil => rfl
      | cons s ss => exact absurd (hcov s (List.mem_cons_self s ss)) (List.not_mem_nil _)
    subst hnil
    simp
  | cons n ns ih =>
    intro songs hnd hcov
    rw [List.map_cons, List.flatten_cons]
    have hnn : n ∉ ns := (List.nodup_cons.mp hnd).1
    have hnd' : ns.Nodup := (List.nodup_cons.mp hnd).2
    have hmap : ∀ m ∈ ns,
        songs.filter (fun s => s.albumName == m) =
          (songs.filter (fun s => !(s.albumName == n))).filter (fun s => s.albumName == m) := by
      intro m hm
      rw [List.filter_filter]
      apply List.filter_congr
      intro s _
      by_cases hsm : s.albumName = m
      · have hmn : m ≠ n := fun hcontra => hnn (hcontra ▸ hm)
        simp [hsm, hmn]
      · simp [hsm]
    have hrw : ns.map (fun m => songs.filter (fun s => s.albumName == m)) =
        ns.map (fun m => (songs.filter (fun s => !(s.albumName == n))).filter
          (fun s => s.albumName == m)) :=
      List.map_congr_left hmap
    rw [hrw]
    have hcov' : ∀ s ∈ songs.filter (fun s => !(s.albumName == n)), s.albumName ∈ ns := by
      intro s hs
      have hmem := List.mem_of_mem_filter hs
      have hprop := List.of_mem_filter hs
      rcases List.mem_cons.mp (hcov s hmem) with hcase | hcase
      · exfalso
        simp [hcase] at hprop
      · exact hcase
    have hperm := ih (songs.filter (fun s => !(s.albumName == n))) hnd' hcov'
    exact List.Perm.trans (List.Perm.append_left _ hperm) (List.filter_append_perm _ songs)

lemma groupByAlbum_names_nodup (songs : List Song) :
    (List.insertionSort strLe (songs.map Song.albumName).dedup).Nodup :=
  ((List.perm_insertionSort strLe _).symm).nodup (List.nodup_dedup _)

lemma groupByAlbum_names_cover (songs : List Song) :
    ∀ s ∈ songs, s.albumName ∈ List.insertionSort strLe (songs.map Song.albumName).dedup := by
  intro s hs
  rw [(List.perm_insertionSort strLe _).mem_iff, List.mem_dedup]
  exact List.mem_map_of_mem Song.albumName hs

/-- C5: the concatenation of the song lists of the albums produced by
groupByAlbum is a permutation of the input: no song is dropped, duplicated
or invented. -/
theorem groupByAlbum_flatten_perm :
    ∀ songs : List Song, (flattenAlbums (groupByAlbum songs)).Perm songs := by
  intro songs
  have hperm := flatten_filter_perm
    (List.insertionSort strLe (songs.map Song.albumName).dedup) songs
    (groupByAlbum_names_nodup songs) (groupByAlbum_names_cover songs)
  simpa [flattenAlbums, groupByAlbum, List.map_map, Function.comp] using hperm

/-- C6: the albums produced by groupByAlbum are strictly ascending in the
ordinal order on their names, so the output order is a deterministic total
order by album name. -/
theorem groupByAlbum_sorted :
    ∀ songs : List Song, List.Sorted strLt ((groupByAlbum songs).map Album.name) := by
  intro songs
  have hmap : (groupByAlbum songs).map Album.name =
      List.insertionSort strLe (songs.map Song.albumName).dedup := by
    simp [groupByAlbum, List.map_map, Function.comp_def]
  rw [hmap]
  haveI : IsTotal String strLe := ⟨fun a b => lexLeChars_total a.data b.data⟩
  haveI : IsTrans String strLe := ⟨fun a b c h1 h2 => lexLeChars_trans a.data b.data c.data h1 h2⟩
  have hs : List.Sorted strLe (List.insertionSort strLe (songs.map Song.albumName).dedup) :=
    List.sorted_insertionSort strLe _
  have hnd := groupByAlbum_names_nodup songs
  exact (hs.and hnd).imp fun h => h

/-- C7: every song placed in an album by groupByAlbum carries that album's
name (the empty string being a valid key), the empty input produces no
albums, and no produced album is empty. -/
theorem groupByAlbum_invariants :
    ∀ songs : List Song,
      (∀ album ∈ groupByAlbum songs, ∀ s ∈ album.songs, s.albumName = album.name)
      ∧ groupByAlbum [] = []
      ∧ (∀ album ∈ groupByAlbum songs, album.songs ≠ []) := by
  intro songs
  refine ⟨?_, rfl, ?_⟩
  · intro album halbum s hs
    rw [groupByAlbum, List.mem_map] at halbum
    obtain ⟨n, hn, rfl⟩ := halbum
    have hprop := List.of_mem_filter hs
    simpa using hprop
  · intro album halbum
    rw [groupByAlbum, List.mem_map] at halbum
    obtain ⟨n, hn, rfl⟩ := halbum
    have hn' : n ∈ (songs.map Song.albumName).dedup :=
      ((List.perm_insertionSort strLe _).mem_iff).mp hn
    rw [List.mem_dedup, List.mem_map] at hn'
    obtain ⟨s, hs, rfl⟩ := hn'
    have hmem : s ∈ songs.filter (fun s' => s'.albumName == s.albumName) :=
      List.mem_filter.mpr ⟨hs, by simp⟩
    exact List.ne_nil_of_mem hmem

/-- Witness for C7: the grouped demo album carries matching names and is
nonempty. -/
theorem groupByAlbum_invariants_witness :
    albumA ∈ groupByAlbum [songNCS, songARR] ∧ songNCS ∈ albumA.songs ∧
      songNCS.albumName = albumA.name ∧ albumA.songs ≠ [] :=
  ⟨by decide, by decide,
    (groupByAlbum_invariants [songNCS, songARR]).1 albumA (by decide) songNCS (by decide),
    (groupByAlbum_invariants [songNCS, songARR]).2.2 albumA (by decide)⟩

end Babafun
